import Mathlib

/-! kuberesolver: backoff driver, crash containment and target parser

Shallow embedding of `util.go` (`until`, `handleCrash`), of `logger.go`
(`LoggerPrintFunc`) and of the target parser exercised by `builder_test.go`.

* `time.Duration` is `int64`: durations are `Int`, and the product `period*2`
  is reduced with `wrap64` (two's complement).
* A Go string is a `List Char`.
* The stop channel and the timer are not simulated: what the two `select`
  statements of `until` pick is an input, `Env.stop`.
* The unit of work `f` is an input as well: `Env.f k` says how its `k`-th
  invocation ends (normal return, or panic with a value). An invocation that
  never ends, or that ends the goroutine or the process, is outside the model.
* `LoggerPrintFunc` records its calls and returns; `debug.Stack()` is an input.
* `parseResolverTarget` is not among the sources: it is modelled from section
  4.1 of the specification and checked against every row of the two tables of
  `builder_test.go`. `url.Parse` is not modelled: a target is the triple of
  scheme, authority and path that `url.Parse` returns.
-/

namespace Kuberesolver

/-! ## Machine integers -/

/-- Reduction of an integer to `int64`, two's complement. -/
def wrap64 (x : Int) : Int :=
  (x + 9223372036854775808) % 18446744073709551616 - 9223372036854775808

/-- The integer is an `int64` value. -/
def inInt64 (x : Int) : Prop :=
  -9223372036854775808 ≤ x ∧ x ≤ 9223372036854775807

instance (x : Int) : Decidable (inInt64 x) := by
  unfold inInt64; infer_instance

/-! ## logger.go and the goroutine state seen by `recover` -/

/-- A Go value of type `any`; `none` is the nil interface. -/
abbrev GoAny := Option String

/-- How one invocation of the unit of work ends. `panicked none` is `panic(nil)`
as `recover` sees it before Go 1.21; a later runtime hands `recover` a
`*runtime.PanicNilError` instead, which is a `panicked (some _)` here. -/
inductive Outcome where
  | returned
  | panicked (v : GoAny)
  deriving DecidableEq, Repr

/-- One call of `LoggerPrintFunc`: the format and the arguments. -/
structure LogCall where
  format : String
  args : List String
  deriving DecidableEq, Repr

/-- The part of a goroutine that `panic`, `recover` and the logger touch:
the panic in flight, if any, and the calls made to `LoggerPrintFunc`. -/
structure Goroutine where
  panicking : Option GoAny
  log : List LogCall
  deriving DecidableEq, Repr

/-- The call `LoggerPrintFunc(format, args...)` of logger.go: the call is recorded. -/
def LoggerPrintFunc (format : String) (args : List String) (g : Goroutine) : Goroutine :=
  { g with log := g.log ++ [⟨format, args⟩] }

/-- Go's `panic(v)`. -/
def goPanic (v : GoAny) (g : Goroutine) : Goroutine :=
  { g with panicking := some v }

/-- Go's `recover()` called directly by a deferred function: the value of the
panic in flight (nil when there is none), and the panic is stopped. -/
def recover (g : Goroutine) : GoAny × Goroutine :=
  match g.panicking with
  | none => (none, g)
  | some v => (v, { g with panicking := none })

/-- The format string of `handleCrash`. -/
def crashFormat : String := "kuberesolver: recovered from panic: %#v (%v)\n%v"

/-- The function `handleCrash` of util.go; `callers` is what `debug.Stack()` returns. -/
def handleCrash (callers : String) (g : Goroutine) : Goroutine :=
  match recover g with
  | (some r, g1) => LoggerPrintFunc crashFormat [r, r, callers] g1
  | (none, g1) => g1

/-- The wrapper `func() { defer handleCrash(); f() }()` of `until`: the unit of
work runs, then the deferred `handleCrash`. A panic still in flight in the
result is one that leaves the wrapper. -/
def protectedCall (o : Outcome) (callers : String) (g : Goroutine) : Goroutine :=
  let g1 := match o with
    | Outcome.returned => g
    | Outcome.panicked v => goPanic v g
  handleCrash callers g1

/-! ## util.go: `until` -/

/-- Where a run of `until` stands. -/
inductive Status where
  | running
  | returned
  | crashed
  deriving DecidableEq, Repr

/-- The inputs of a run of `until`. `stop 0` is the outcome of the entry
`select` and `stop (k+1)` the outcome of the `select` after the `(k+1)`-th
invocation of `f`: `true` when the `stopCh` case is taken, `false` when the
timer case is. -/
structure Env where
  f : Nat → Outcome
  callers : Nat → String
  initialPeriod : Int
  maxPeriod : Int
  stop : Nat → Bool

/-- The state of a run of `until`: the local `period`, the number of
invocations of `f` so far, the periods of the timers armed so far, the
goroutine, and the status. -/
structure UntilState where
  period : Int
  calls : Nat
  waits : List Int
  g : Goroutine
  status : Status
  deriving DecidableEq, Repr

/-- The period after a timer of `period` fired (util.go lines 27-31). -/
def nextPeriod (period initialPeriod maxPeriod : Int) : Int :=
  if wrap64 (period * 2) ≤ maxPeriod then wrap64 (period * 2) else initialPeriod

/-- One pass through the body of the `for` loop of `until` (lines 19-32). -/
def untilIter (e : Env) (s : UntilState) : UntilState :=
  let g1 := protectedCall (e.f s.calls) (e.callers s.calls) s.g
  if g1.panicking.isSome then
    { period := s.period, calls := s.calls + 1, waits := s.waits, g := g1,
      status := Status.crashed }
  else if e.stop (s.calls + 1) then
    { period := s.period, calls := s.calls + 1, waits := s.waits ++ [s.period], g := g1,
      status := Status.returned }
  else
    { period := nextPeriod s.period e.initialPeriod e.maxPeriod, calls := s.calls + 1,
      waits := s.waits ++ [s.period], g := g1, status := Status.running }

/-- The `for` loop of `until`, at most `fuel` passes. -/
def untilLoop (e : Env) : Nat → UntilState → UntilState
  | 0, s => s
  | fuel + 1, s =>
    match s.status with
    | Status.running => untilLoop e fuel (untilIter e s)
    | _ => s

/-- The state in which `until` reaches its entry `select`: no panic is in
flight and nothing has been logged yet. -/
def untilStart (e : Env) : UntilState :=
  { period := e.initialPeriod, calls := 0, waits := [], g := ⟨none, []⟩,
    status := Status.running }

/-- The function `until` of util.go, run for at most `fuel` passes through
the loop. The status of the result says whether it has returned. -/
def «until» (e : Env) (fuel : Nat) : UntilState :=
  if e.stop 0 then { untilStart e with status := Status.returned }
  else untilLoop e fuel (untilStart e)

/-- The period of the `i`-th timer of a run that is not stopped. -/
def periodAt (initialPeriod maxPeriod : Int) : Nat → Int
  | 0 => initialPeriod
  | i + 1 => nextPeriod (periodAt initialPeriod maxPeriod i) initialPeriod maxPeriod

/-- A run never stopped, with `initialPeriod = 2^62` and `maxPeriod = 2^63 - 1`. -/
def overflowEnv : Env :=
  { f := fun _ => Outcome.returned, callers := fun _ => "",
    initialPeriod := 4611686018427387904, maxPeriod := 9223372036854775807,
    stop := fun _ => false }

/-- A run never stopped, from one second to thirty seconds (in nanoseconds),
whose unit of work panics at every other invocation. -/
def sampleEnv : Env :=
  { f := fun k => if k % 2 = 0 then Outcome.panicked (some "boom") else Outcome.returned,
    callers := fun _ => "stack",
    initialPeriod := 1000000000, maxPeriod := 30000000000,
    stop := fun _ => false }

/-- A run whose stop signal is already there at the entry `select`. -/
def stoppedEnv : Env := { sampleEnv with stop := fun _ => true }

/-- A run whose stop signal is first observed during the second wait. -/
def secondWaitEnv : Env := { sampleEnv with stop := fun k => decide (2 ≤ k) }

/-- Two states agree on everything but the goroutine. -/
def sameTiming (s t : UntilState) : Prop :=
  s.period = t.period ∧ s.calls = t.calls ∧ s.waits = t.waits ∧ s.status = t.status

/-- The timers armed so far are those of `periodAt`, and so is the current period. -/
def timersFollow (e : Env) (s : UntilState) : Prop :=
  s.waits = (List.range s.waits.length).map (periodAt e.initialPeriod e.maxPeriod) ∧
    (s.status = Status.running → s.period = periodAt e.initialPeriod e.maxPeriod s.waits.length)

instance (s t : UntilState) : Decidable (sameTiming s t) := by
  unfold sameTiming; infer_instance

instance (e : Env) (s : UntilState) : Decidable (timersFollow e s) := by
  unfold timersFollow; infer_instance

/-! ## Target parser (`parseResolverTarget`, exercised by builder_test.go) -/

/-- The target handed to the parser, as `parseTarget` of builder_test.go builds
it with `url.Parse`: scheme, authority (`URL.Host`) and path (`URL.Path`). -/
structure Target where
  scheme : List Char
  authority : List Char
  path : List Char
  deriving DecidableEq, Repr

/-- The descriptor `targetInfo` that builder_test.go compares, field by field:
scheme, service name, namespace, port, resolve-by-port-name, use-first-port. -/
structure targetInfo where
  scheme : List Char
  serviceName : List Char
  namespace_ : List Char
  port : List Char
  resolveByPort : Bool
  useFirstPort : Bool
  deriving DecidableEq, Repr

/-- The two ways the parser fails. -/
inductive ParseError where
  | emptyTarget
  | noService
  deriving DecidableEq, Repr

/-- Split at the last occurrence of `c`: what stands before it and after it. -/
def splitLast (c : Char) : List Char → Option (List Char × List Char)
  | [] => none
  | x :: xs =>
    match splitLast c xs with
    | some (a, b) => some (x :: a, b)
    | none => if x = c then some ([], xs) else none

/-- Split at the first occurrence of `c`; the second part is empty when there is none. -/
def splitFirst (c : Char) : List Char → List Char × List Char
  | [] => ([], [])
  | x :: xs => if x = c then ([], xs) else ((x :: (splitFirst c xs).1), (splitFirst c xs).2)

/-- Modelled from the spec: the in-cluster DNS suffix of section 4.1 step 3, the
one that makes `a.b.svc.cluster.local` equivalent to `a.b`. -/
def clusterSuffix : List Char := ".svc.cluster.local".data

/-- Remove `suf` from the end of `s` when `s` ends with it. -/
def stripSuffix (suf s : List Char) : List Char :=
  if suf.isSuffixOf s then s.take (s.length - suf.length) else s

/-- Decimal value of a string of digits, continuing from `acc`. -/
def atoiAux : Nat → List Char → Option Nat
  | acc, [] => some acc
  | acc, c :: cs => if c.isDigit then atoiAux (acc * 10 + (c.toNat - 48)) cs else none

/-- Modelled from the spec: section 4.1 step 5, "parses as non-negative base-10
integer". The string is not empty and every character is a decimal digit. -/
def atoi (s : List Char) : Option Nat :=
  match s with
  | [] => none
  | _ => atoiAux 0 s

/-- Modelled from the spec: section 4.1 steps 2 to 4 on one component
`service[.namespace][:port]`. The trailing `:<port>` is cut first (at the last
colon; a component of builder_test.go holds one colon at most, where the last
and the first are the same), then the in-cluster suffix is stripped, then the
name is split on its first `.`. The result is (service, namespace, port). -/
def splitServicePortNamespace (hpn : List Char) : List Char × List Char × List Char :=
  let np := match splitLast ':' hpn with
    | some (a, b) => (a, b)
    | none => (hpn, [])
  let parts := splitFirst '.' (stripSuffix clusterSuffix np.1)
  (parts.1, parts.2, np.2)

/-- The path of the target without its leading `/`. -/
def pathComponent (t : Target) : List Char :=
  match t.path with
  | [] => []
  | c :: r => if c = '/' then r else c :: r

/-- Modelled from the spec: section 4.1 step 2, the (service, namespace, port)
extracted from a target. With an authority and a path component, the authority
is the namespace and the path component gives service and port (authority wins
over any dot in the path segment). With no authority, the path component is
`service[.namespace][:port]`. The rows of builder_test.go whose path is empty or
`/` and whose authority is not (lines 127, 128, 153, 154, 157, 162 to 164) fix
the remaining case: the authority is then `service[.namespace][:port]`. -/
def extractNames (t : Target) : List Char × List Char × List Char :=
  if t.authority = [] then splitServicePortNamespace (pathComponent t)
  else if pathComponent t = [] then splitServicePortNamespace t.authority
  else
    let sp := splitServicePortNamespace (pathComponent t)
    (sp.1, t.authority, sp.2.2)

/-- Modelled from the spec: section 4.1 step 5 and the data model of section 3,
the descriptor of a service, namespace and port. An empty port sets
`useFirstPort`; a port that is not empty and does not parse as a non-negative
base-10 integer sets `resolveByPort`. -/
def describe (scheme svc ns port : List Char) : targetInfo :=
  { scheme := scheme
    serviceName := svc
    namespace_ := ns
    port := port
    resolveByPort := !port.isEmpty && (atoi port).isNone
    useFirstPort := port.isEmpty }

/-- Modelled from the spec: the target parser `parseResolverTarget` of section
4.1, whose source file is not among the sources (only its tests are). Step 1
rejects the target with nothing after the scheme (`""`, `/`, `kubernetes:///`),
step 6 the target with no service name, step 5 classifies the port. -/
def parseResolverTarget (t : Target) : Except ParseError targetInfo :=
  if t.authority = [] ∧ pathComponent t = [] then Except.error ParseError.emptyTarget
  else
    let snp := extractNames t
    if snp.1 = [] then Except.error ParseError.noService
    else
      Except.ok (describe t.scheme snp.1 snp.2.1 snp.2.2)

/-- Modelled from the spec: the canonical rendering `namespace/service:port` of
a descriptor under its scheme (section 8), as a target: the namespace is the
authority and `/service:port` the path. -/
def render (d : targetInfo) : Target :=
  { scheme := d.scheme, authority := d.namespace_, path := '/' :: (d.serviceName ++ ':' :: d.port) }

/-- The rendering `namespace/service[:port]` that leaves the colon out when the
port is empty. -/
def renderShort (d : targetInfo) : Target :=
  { scheme := d.scheme, authority := d.namespace_,
    path := '/' :: (d.serviceName ++ (if d.port = [] then [] else ':' :: d.port)) }

/-- The optional `:port` at the end of a target. -/
def portSuffix : Option (List Char) → List Char
  | none => []
  | some p => ':' :: p

/-- The targets made of the single component `comp`: `/comp` and `comp` in the
path, `//comp` and `//comp/` in the authority. -/
def placements (scheme comp : List Char) : List Target :=
  [⟨scheme, [], '/' :: comp⟩, ⟨scheme, [], comp⟩, ⟨scheme, comp, []⟩, ⟨scheme, comp, ['/']⟩]

/-- What `url.Parse` makes of a test string, written out: scheme, host, path. -/
def mkTarget (scheme authority path : String) : Target :=
  ⟨scheme.data, authority.data, path.data⟩

/-- A row of the tables of builder_test.go. -/
def mkInfo (scheme svc ns port : String) (byPort first : Bool) : targetInfo :=
  ⟨scheme.data, svc.data, ns.data, port.data, byPort, first⟩

/-- The parser's result as the test sees it: `none` for an error. -/
def parsed (t : Target) : Option targetInfo :=
  match parseResolverTarget t with
  | Except.ok d => some d
  | Except.error _ => none

/-- The rows of `TestParseResolverTarget` (builder_test.go lines 113 to 128),
each target split by hand as `url.Parse` splits it. -/
def resolverTargetRows : List (Target × Option targetInfo) :=
  [ (mkTarget "" "" "/", none),
    (mkTarget "" "" "a", some (mkInfo "" "a" "" "" false true)),
    (mkTarget "" "" "/a", some (mkInfo "" "a" "" "" false true)),
    (mkTarget "" "a" "/b", some (mkInfo "" "b" "a" "" false true)),
    (mkTarget "" "" "a.b", some (mkInfo "" "a" "b" "" false true)),
    (mkTarget "" "" "/a.b", some (mkInfo "" "a" "b" "" false true)),
    (mkTarget "" "" "/a.b:80", some (mkInfo "" "a" "b" "80" false false)),
    (mkTarget "" "" "/a.b:port", some (mkInfo "" "a" "b" "port" true false)),
    (mkTarget "" "a" "/b:port", some (mkInfo "" "b" "a" "port" true false)),
    (mkTarget "" "a" "/b:port", some (mkInfo "" "b" "a" "port" true false)),
    (mkTarget "" "a" "/b:80", some (mkInfo "" "b" "a" "80" false false)),
    (mkTarget "" "" "a.b.svc.cluster.local", some (mkInfo "" "a" "b" "" false true)),
    (mkTarget "" "" "/a.b.svc.cluster.local:80", some (mkInfo "" "a" "b" "80" false false)),
    (mkTarget "" "" "/a.b.svc.cluster.local:port", some (mkInfo "" "a" "b" "port" true false)),
    (mkTarget "" "a.b.svc.cluster.local" "", some (mkInfo "" "a" "b" "" false true)),
    (mkTarget "" "a.b.svc.cluster.local:80" "", some (mkInfo "" "a" "b" "80" false false)) ]

/-- The rows of `TestParseTargets` (builder_test.go lines 151 to 167). -/
def targetRows : List (Target × Option targetInfo) :=
  [ (mkTarget "" "" "", none),
    (mkTarget "kubernetes" "" "/", none),
    (mkTarget "kubernetes" "a:30" "", some (mkInfo "kubernetes" "a" "" "30" false false)),
    (mkTarget "kubernetes" "a" "/", some (mkInfo "kubernetes" "a" "" "" false true)),
    (mkTarget "kubernetes" "" "/a", some (mkInfo "kubernetes" "a" "" "" false true)),
    (mkTarget "kubernetes" "a" "/b", some (mkInfo "kubernetes" "b" "a" "" false true)),
    (mkTarget "kubernetes" "a.b" "/", some (mkInfo "kubernetes" "a" "b" "" false true)),
    (mkTarget "kubernetes" "" "/a.b:80", some (mkInfo "kubernetes" "a" "b" "80" false false)),
    (mkTarget "kubernetes" "" "/a.b:port", some (mkInfo "kubernetes" "a" "b" "port" true false)),
    (mkTarget "kubernetes" "" "/a:port", some (mkInfo "kubernetes" "a" "" "port" true false)),
    (mkTarget "kubernetes" "x" "/a:port", some (mkInfo "kubernetes" "a" "x" "port" true false)),
    (mkTarget "kubernetes" "a.x:30" "/", some (mkInfo "kubernetes" "a" "x" "30" false false)),
    (mkTarget "kubernetes" "a.b.svc.cluster.local" "",
      some (mkInfo "kubernetes" "a" "b" "" false true)),
    (mkTarget "kubernetes" "a.b.svc.cluster.local:80" "",
      some (mkInfo "kubernetes" "a" "b" "80" false false)),
    (mkTarget "kubernetes" "" "/a.b.svc.cluster.local",
      some (mkInfo "kubernetes" "a" "b" "" false true)),
    (mkTarget "kubernetes" "" "/a.b.svc.cluster.local:80",
      some (mkInfo "kubernetes" "a" "b" "80" false false)),
    (mkTarget "kubernetes" "" "/a.b.svc.cluster.local:port",
      some (mkInfo "kubernetes" "a" "b" "port" true false)) ]

end Kuberesolver

namespace Kuberesolver

/-! ## Crash containment: lemmas -/

theorem handleCrash_panicking (callers : String) (g : Goroutine) :
    (handleCrash callers g).panicking = none := by
  unfold handleCrash recover
  cases h : g.panicking with
  | none => simp [h]
  | some v => cases v <;> simp [LoggerPrintFunc]

theorem protectedCall_panicking (o : Outcome) (callers : String) (g : Goroutine) :
    (protectedCall o callers g).panicking = none := by
  unfold protectedCall
  exact handleCrash_panicking _ _

/-! ## `until`: lemmas -/

theorem wrap64_of_inInt64 (x : Int) (h : inInt64 x) : wrap64 x = x := by
  unfold inInt64 at h
  unfold wrap64
  omega

theorem untilIter_eq (e : Env) (s : UntilState) :
    untilIter e s =
      if e.stop (s.calls + 1) then
        { period := s.period, calls := s.calls + 1, waits := s.waits ++ [s.period],
          g := protectedCall (e.f s.calls) (e.callers s.calls) s.g, status := Status.returned }
      else
        { period := nextPeriod s.period e.initialPeriod e.maxPeriod, calls := s.calls + 1,
          waits := s.waits ++ [s.period],
          g := protectedCall (e.f s.calls) (e.callers s.calls) s.g, status := Status.running } := by
  simp [untilIter, protectedCall_panicking]

theorem untilLoop_not_running (e : Env) (fuel : Nat) (s : UntilState)
    (h : s.status ≠ Status.running) : untilLoop e fuel s = s := by
  cases fuel with
  | zero => rfl
  | succ n =>
    unfold untilLoop
    cases hs : s.status <;> simp_all

theorem untilLoop_running (e : Env) (fuel : Nat) (s : UntilState)
    (h : s.status = Status.running) :
    untilLoop e (fuel + 1) s = untilLoop e fuel (untilIter e s) := by
  conv_lhs => unfold untilLoop
  simp [h]

/-- The loop never ends with a panic in flight. -/
theorem untilLoop_not_crashed (e : Env) (fuel : Nat) (s : UntilState)
    (h : s.status ≠ Status.crashed) : (untilLoop e fuel s).status ≠ Status.crashed := by
  induction fuel generalizing s with
  | zero => simpa [untilLoop] using h
  | succ n ih =>
    by_cases hr : s.status = Status.running
    · rw [untilLoop_running e n s hr]
      apply ih
      rw [untilIter_eq]
      split <;> simp
    · rw [untilLoop_not_running e _ s hr]
      exact h

theorem untilLoop_sameTiming (e e2 : Env) (hi : e2.initialPeriod = e.initialPeriod)
    (hm : e2.maxPeriod = e.maxPeriod) (hs : e2.stop = e.stop) (fuel : Nat)
    (s t : UntilState) (h : sameTiming s t) :
    sameTiming (untilLoop e fuel s) (untilLoop e2 fuel t) := by
  induction fuel generalizing s t with
  | zero => simpa [untilLoop] using h
  | succ n ih =>
    obtain ⟨hp, hc, hw, hst⟩ := h
    by_cases hr : s.status = Status.running
    · have hr2 : t.status = Status.running := by rw [← hst]; exact hr
      rw [untilLoop_running e n s hr, untilLoop_running e2 n t hr2]
      apply ih
      rw [untilIter_eq, untilIter_eq, hs, hi, hm, hp, hc, hw]
      by_cases hstop : e.stop (t.calls + 1) = true
      · simp [hstop, sameTiming]
      · simp [hstop, sameTiming]
    · have hr2 : t.status ≠ Status.running := by rw [← hst]; exact hr
      rw [untilLoop_not_running e _ s hr, untilLoop_not_running e2 _ t hr2]
      exact ⟨hp, hc, hw, hst⟩

/-- While the stop signal is not observed the loop keeps running, one
invocation per pass. -/
theorem untilLoop_keeps_running (e : Env) (n : Nat) (s : UntilState)
    (hr : s.status = Status.running)
    (hstop : ∀ k, s.calls < k → k ≤ s.calls + n → e.stop k = false) :
    (untilLoop e n s).status = Status.running ∧ (untilLoop e n s).calls = s.calls + n := by
  induction n generalizing s with
  | zero => simp [untilLoop, hr]
  | succ n ih =>
    rw [untilLoop_running e n s hr]
    have h1 : e.stop (s.calls + 1) = false := hstop _ (by omega) (by omega)
    have hit : (untilIter e s).status = Status.running ∧ (untilIter e s).calls = s.calls + 1 := by
      rw [untilIter_eq]; simp [h1]
    have := ih (untilIter e s) hit.1 (by
      intro k hk1 hk2
      rw [hit.2] at hk1 hk2
      exact hstop k (by omega) (by omega))
    rw [hit.2] at this
    refine ⟨this.1, ?_⟩
    rw [this.2]; omega

/-- The loop returns at the first pass whose `select` observes the stop signal. -/
theorem untilLoop_returns (e : Env) (n : Nat) (s : UntilState)
    (hr : s.status = Status.running)
    (hstop : ∀ k, s.calls < k → k ≤ s.calls + n → e.stop k = false)
    (hn : e.stop (s.calls + n + 1) = true) (fuel : Nat) (hfuel : n + 1 ≤ fuel) :
    (untilLoop e fuel s).status = Status.returned ∧
      (untilLoop e fuel s).calls = s.calls + n + 1 := by
  induction n generalizing s fuel with
  | zero =>
    obtain ⟨m, rfl⟩ : ∃ m, fuel = m + 1 := ⟨fuel - 1, by omega⟩
    rw [untilLoop_running e m s hr]
    have hit : (untilIter e s).status = Status.returned ∧ (untilIter e s).calls = s.calls + 1 := by
      rw [untilIter_eq]; simp at hn; simp [hn]
    rw [untilLoop_not_running e m _ (by rw [hit.1]; decide)]
    simpa using hit
  | succ n ih =>
    obtain ⟨m, rfl⟩ : ∃ m, fuel = m + 1 := ⟨fuel - 1, by omega⟩
    rw [untilLoop_running e m s hr]
    have h1 : e.stop (s.calls + 1) = false := hstop _ (by omega) (by omega)
    have hit : (untilIter e s).status = Status.running ∧ (untilIter e s).calls = s.calls + 1 := by
      rw [untilIter_eq]; simp [h1]
    have := ih (untilIter e s) hit.1 (by
      intro k hk1 hk2
      rw [hit.2] at hk1 hk2
      exact hstop k (by omega) (by omega)) (by
      rw [hit.2]
      have : s.calls + 1 + n + 1 = s.calls + (n + 1) + 1 := by omega
      rw [this]; exact hn) m (by omega)
    rw [hit.2] at this
    refine ⟨this.1, ?_⟩
    rw [this.2]; omega

/-- A returned loop has observed the stop signal at its last `select`. -/
theorem untilLoop_returned_observed (e : Env) (fuel : Nat) (s : UntilState)
    (hinv : s.status = Status.returned → e.stop s.calls = true) :
    (untilLoop e fuel s).status = Status.returned →
      e.stop (untilLoop e fuel s).calls = true := by
  induction fuel generalizing s with
  | zero => simpa [untilLoop] using hinv
  | succ n ih =>
    by_cases hr : s.status = Status.running
    · rw [untilLoop_running e n s hr]
      apply ih
      rw [untilIter_eq]
      by_cases hstop : e.stop (s.calls + 1) = true
      · simp [hstop]
      · simp [hstop]
    · rw [untilLoop_not_running e _ s hr]
      exact hinv

theorem untilIter_timersFollow (e : Env) (s : UntilState) (hr : s.status = Status.running)
    (h : timersFollow e s) : timersFollow e (untilIter e s) := by
  obtain ⟨hw, hp⟩ := h
  have hp2 := hp hr
  have key : s.waits ++ [s.period] =
      (List.range (s.waits ++ [s.period]).length).map (periodAt e.initialPeriod e.maxPeriod) := by
    rw [List.length_append, List.length_singleton, List.range_succ, List.map_append, ← hw, hp2]
    rfl
  rw [untilIter_eq]
  by_cases hstop : e.stop (s.calls + 1) = true
  · rw [if_pos hstop]
    exact ⟨key, by simp⟩
  · rw [if_neg hstop]
    refine ⟨key, fun _ => ?_⟩
    show nextPeriod s.period e.initialPeriod e.maxPeriod =
      periodAt e.initialPeriod e.maxPeriod (s.waits ++ [s.period]).length
    rw [List.length_append, List.length_singleton, hp2]
    rfl

theorem untilLoop_timersFollow (e : Env) (fuel : Nat) (s : UntilState)
    (h : timersFollow e s) : timersFollow e (untilLoop e fuel s) := by
  induction fuel generalizing s with
  | zero => simpa [untilLoop] using h
  | succ n ih =>
    by_cases hr : s.status = Status.running
    · rw [untilLoop_running e n s hr]
      exact ih _ (untilIter_timersFollow e s hr h)
    · rw [untilLoop_not_running e _ s hr]
      exact h

theorem until_timersFollow (e : Env) (fuel : Nat) : timersFollow e («until» e fuel) := by
  unfold «until»
  split
  · exact ⟨by simp [untilStart], by simp⟩
  · exact untilLoop_timersFollow e fuel _ ⟨by simp [untilStart], by simp [untilStart, periodAt]⟩

/-- Some number of doublings is the last one that stays within `maxPeriod`. -/
theorem exists_maxDoublings (a b : Int) (h0 : 0 < a) (h1 : a ≤ b) :
    ∃ K : Nat, a * 2 ^ K ≤ b ∧ b < a * 2 ^ (K + 1) := by
  lift a to ℕ using h0.le
  lift b to ℕ using (h0.le.trans h1)
  have ha : 0 < a := by exact_mod_cast h0
  have hab : a ≤ b := by exact_mod_cast h1
  refine ⟨Nat.log 2 (b / a), ?_, ?_⟩
  · have h := Nat.pow_log_le_self 2 (x := b / a) (by
      have := Nat.div_pos hab ha
      omega)
    have h2 : a * 2 ^ Nat.log 2 (b / a) ≤ b := by
      calc a * 2 ^ Nat.log 2 (b / a) ≤ a * (b / a) := Nat.mul_le_mul_left a h
        _ ≤ b := Nat.mul_div_le b a
    exact_mod_cast h2
  · have h := Nat.lt_pow_succ_log_self (b := 2) (by norm_num) (b / a)
    have h2 : b < a * 2 ^ (Nat.log 2 (b / a) + 1) := by
      have := (Nat.div_lt_iff_lt_mul ha).mp h
      rw [Nat.mul_comm] at this
      exact this
    exact_mod_cast h2

/-- Closed form of the timer periods when no product overflows. -/
theorem periodAt_closed (a b : Int) (K : Nat) (h0 : 0 < a)
    (h2 : 2 * b ≤ 9223372036854775807) (hK1 : a * 2 ^ K ≤ b) (hK2 : b < a * 2 ^ (K + 1))
    (i : Nat) : periodAt a b i = a * 2 ^ (i % (K + 1)) := by
  induction i with
  | zero => simp [periodAt]
  | succ i ih =>
    have hr : i % (K + 1) < K + 1 := Nat.mod_lt _ (by omega)
    have hpos : (0 : Int) < a * 2 ^ (i % (K + 1)) := by positivity
    have hle : a * 2 ^ (i % (K + 1)) ≤ a * 2 ^ K := by
      apply mul_le_mul_of_nonneg_left _ h0.le
      exact pow_le_pow_right₀ (by norm_num) (by omega)
    have hw : wrap64 (a * 2 ^ (i % (K + 1)) * 2) = a * 2 ^ (i % (K + 1)) * 2 := by
      apply wrap64_of_inInt64
      unfold inInt64
      constructor <;> omega
    simp only [periodAt, ih, nextPeriod, hw]
    by_cases hlt : i % (K + 1) < K
    · have hmod : (i + 1) % (K + 1) = i % (K + 1) + 1 := by
        rw [Nat.add_mod]
        have : 1 % (K + 1) = 1 := Nat.mod_eq_of_lt (by omega)
        rw [this]
        exact Nat.mod_eq_of_lt (by omega)
      have hle2 : a * 2 ^ (i % (K + 1) + 1) ≤ a * 2 ^ K := by
        apply mul_le_mul_of_nonneg_left _ h0.le
        exact pow_le_pow_right₀ (by norm_num) (by omega)
      rw [hmod, pow_succ, ← mul_assoc]
      rw [pow_succ, ← mul_assoc] at hle2
      rw [if_pos (by omega)]
    · have hK : i % (K + 1) = K := by omega
      have hmod : (i + 1) % (K + 1) = 0 := by
        rw [Nat.add_mod, hK]
        by_cases hK0 : K = 0
        · subst hK0; simp
        · have : 1 % (K + 1) = 1 := Nat.mod_eq_of_lt (by omega)
          rw [this]
          exact Nat.mod_self _
      rw [hmod, hK]
      rw [pow_succ, ← mul_assoc] at hK2
      rw [if_neg (by omega)]
      simp

theorem getElem?_of_eq_map_range (P : Nat → Int) (l : List Int)
    (hl : l = (List.range l.length).map P) (i : Nat) (hi : i < l.length) :
    l[i]? = some (P i) := by
  conv_lhs => rw [hl]
  rw [List.getElem?_map, List.getElem?_range hi]
  rfl

theorem untilLoop_no_panic (e : Env) (fuel : Nat) (s : UntilState)
    (h : s.g.panicking = none) : (untilLoop e fuel s).g.panicking = none := by
  induction fuel generalizing s with
  | zero => simpa [untilLoop] using h
  | succ n ih =>
    by_cases hr : s.status = Status.running
    · rw [untilLoop_running e n s hr]
      apply ih
      rw [untilIter_eq]
      split <;> exact protectedCall_panicking _ _ _
    · rw [untilLoop_not_running e _ s hr]
      exact h

/-! ## Claims on `until` and `handleCrash` -/

/-- C1, as stated, fails: with `period = initialPeriod = 2^62` and
`maxPeriod = 2^63 - 1` the doubled period `2^63` exceeds `maxPeriod`, yet after
the first wait elapses the period is `-2^63`, not `initialPeriod`: the product
`period*2` wraps. -/
theorem nextPeriod_overflow_counterexample :
    inInt64 overflowEnv.initialPeriod ∧ inInt64 overflowEnv.maxPeriod ∧
    (untilStart overflowEnv).period = 4611686018427387904 ∧
    overflowEnv.stop ((untilStart overflowEnv).calls + 1) = false ∧
    ¬ (2 * (untilStart overflowEnv).period ≤ overflowEnv.maxPeriod) ∧
    (untilIter overflowEnv (untilStart overflowEnv)).period = -9223372036854775808 ∧
    ¬ ((untilIter overflowEnv (untilStart overflowEnv)).period =
        if 2 * (untilStart overflowEnv).period ≤ overflowEnv.maxPeriod
        then 2 * (untilStart overflowEnv).period else overflowEnv.initialPeriod) := by
  decide

/-- C1, amended: when a wait of `period` elapses without the stop signal being
observed, the next period is the 64-bit product `period*2` if that product does
not exceed `maxPeriod` and `initialPeriod` otherwise, never `maxPeriod` as a
clamp; and when `-2^62 ≤ period < 2^62` the product is `2*period` itself, so the
next period is `2*period` if `2*period ≤ maxPeriod` and `initialPeriod` otherwise. -/
theorem untilIter_period (e : Env) (s : UntilState) (hstop : e.stop (s.calls + 1) = false) :
    ((untilIter e s).period =
        if wrap64 (s.period * 2) ≤ e.maxPeriod then wrap64 (s.period * 2) else e.initialPeriod) ∧
    (-4611686018427387904 ≤ s.period → s.period ≤ 4611686018427387903 →
      (untilIter e s).period =
        if 2 * s.period ≤ e.maxPeriod then 2 * s.period else e.initialPeriod) := by
  have h1 : (untilIter e s).period = nextPeriod s.period e.initialPeriod e.maxPeriod := by
    rw [untilIter_eq]; simp [hstop]
  refine ⟨h1, fun hlo hhi => ?_⟩
  have hw : wrap64 (s.period * 2) = 2 * s.period := by
    unfold wrap64; omega
  rw [h1, nextPeriod, hw]

theorem untilIter_period_witness :
    sampleEnv.stop ((untilStart sampleEnv).calls + 1) = false ∧
    (((untilIter sampleEnv (untilStart sampleEnv)).period =
        if wrap64 ((untilStart sampleEnv).period * 2) ≤ sampleEnv.maxPeriod
        then wrap64 ((untilStart sampleEnv).period * 2) else sampleEnv.initialPeriod) ∧
    (-4611686018427387904 ≤ (untilStart sampleEnv).period →
      (untilStart sampleEnv).period ≤ 4611686018427387903 →
      (untilIter sampleEnv (untilStart sampleEnv)).period =
        if 2 * (untilStart sampleEnv).period ≤ sampleEnv.maxPeriod
        then 2 * (untilStart sampleEnv).period else sampleEnv.initialPeriod)) :=
  ⟨by decide, untilIter_period sampleEnv (untilStart sampleEnv) (by decide)⟩

/-- C2: when the entry `select` of `until` observes the stop signal, `until`
has returned after zero invocations of the unit of work, whatever the unit of
work and the periods are; no timer was armed and nothing was logged. -/
theorem until_stopped_at_entry (e : Env) (h : e.stop 0 = true) (fuel : Nat) :
    («until» e fuel).status = Status.returned ∧ («until» e fuel).calls = 0 ∧
    («until» e fuel).waits = [] ∧ («until» e fuel).g.log = [] := by
  simp [«until», h, untilStart]

theorem until_stopped_at_entry_witness :
    stoppedEnv.stop 0 = true ∧
    ((«until» stoppedEnv 7).status = Status.returned ∧ («until» stoppedEnv 7).calls = 0 ∧
    («until» stoppedEnv 7).waits = [] ∧ («until» stoppedEnv 7).g.log = []) :=
  ⟨by decide, until_stopped_at_entry stoppedEnv (by decide) 7⟩

/-- C3: no panic of the unit of work leaves `until` (the run never ends with a
panic in flight), and two runs with the same periods and the same stop
observations have the same timers, the same number of invocations, the same
current period and the same status, whatever the outcomes of the invocations
of the unit of work are in each. -/
theorem until_panic_transparent (e : Env) (f2 : Nat → Outcome) (callers2 : Nat → String)
    (fuel : Nat) :
    («until» e fuel).status ≠ Status.crashed ∧ («until» e fuel).g.panicking = none ∧
    («until» { e with f := f2, callers := callers2 } fuel).waits = («until» e fuel).waits ∧
    («until» { e with f := f2, callers := callers2 } fuel).calls = («until» e fuel).calls ∧
    («until» { e with f := f2, callers := callers2 } fuel).period = («until» e fuel).period ∧
    («until» { e with f := f2, callers := callers2 } fuel).status = («until» e fuel).status := by
  unfold «until»
  by_cases h0 : e.stop 0 = true
  · simp [h0, untilStart]
  · simp only [h0]
    have hs := untilLoop_sameTiming e { e with f := f2, callers := callers2 } rfl rfl rfl fuel
      (untilStart e) (untilStart { e with f := f2, callers := callers2 })
      ⟨rfl, rfl, rfl, rfl⟩
    obtain ⟨hp, hc, hw, hst⟩ := hs
    refine ⟨?_, ?_, hw.symm, hc.symm, hp.symm, hst.symm⟩
    · exact untilLoop_not_crashed e fuel _ (by simp [untilStart])
    · exact untilLoop_no_panic e fuel _ rfl

/-- C4: `until` returns only on an observation of the stop signal (the one of
its last `select`); when the signal is first observed at the `n`-th wait,
`n ≥ 1`, `until` is still running before the `n`-th pass and has returned after
exactly `n` invocations of the unit of work once `n` passes are allowed; when
the signal is never observed, `until` is still running after any number of
passes, with one invocation per pass. -/
theorem until_returns_on_stop (e : Env) :
    (∀ fuel, («until» e fuel).status = Status.returned →
      e.stop («until» e fuel).calls = true) ∧
    (∀ n, 1 ≤ n → (∀ k, k < n → e.stop k = false) → e.stop n = true →
      (∀ fuel, n ≤ fuel →
        («until» e fuel).status = Status.returned ∧ («until» e fuel).calls = n) ∧
      (∀ fuel, fuel < n →
        («until» e fuel).status = Status.running ∧ («until» e fuel).calls = fuel)) ∧
    ((∀ k, e.stop k = false) → ∀ fuel,
      («until» e fuel).status = Status.running ∧ («until» e fuel).calls = fuel) := by
  refine ⟨?_, ?_, ?_⟩
  · intro fuel
    unfold «until»
    by_cases h0 : e.stop 0 = true
    · simp [h0, untilStart]
    · simp only [h0]
      exact untilLoop_returned_observed e fuel _ (by simp [untilStart])
  · intro n hn hbefore hat
    have h0 : e.stop 0 = false := hbefore 0 (by omega)
    constructor
    · intro fuel hfuel
      unfold «until»
      simp only [h0]
      have := untilLoop_returns e (n - 1) (untilStart e) rfl
        (by intro k _ hk2; exact hbefore k (by simp [untilStart] at hk2; omega))
        (by
          have : (untilStart e).calls + (n - 1) + 1 = n := by simp [untilStart]; omega
          rw [this]; exact hat)
        fuel (by omega)
      have hc : (untilStart e).calls + (n - 1) + 1 = n := by simp [untilStart]; omega
      rw [hc] at this
      simpa using this
    · intro fuel hfuel
      unfold «until»
      simp only [h0]
      have := untilLoop_keeps_running e fuel (untilStart e) rfl
        (by intro k _ hk2; exact hbefore k (by simp [untilStart] at hk2; omega))
      simpa [untilStart] using this
  · intro hnever fuel
    unfold «until»
    simp only [hnever 0]
    have := untilLoop_keeps_running e fuel (untilStart e) rfl (fun k _ _ => hnever k)
    simpa [untilStart] using this

theorem until_returns_on_stop_witness :
    («until» secondWaitEnv 5).status = Status.returned ∧ («until» secondWaitEnv 5).calls = 2 :=
  ((until_returns_on_stop secondWaitEnv).2.1 2 (by decide)
    (by intro k hk; interval_cases k <;> rfl) rfl).1 5 (by decide)

/-- C5: run as the deferred handler of a unit of work started with no panic in
flight, `handleCrash` makes exactly one call of `LoggerPrintFunc`, with the
fault value and the captured stack among the arguments, when the unit of work
panicked with a non-nil value, and makes none when it returned normally; in
both cases no panic is in flight when the wrapper ends. -/
theorem handleCrash_logs_once (callers : String) (g : Goroutine) (hg : g.panicking = none) :
    (∀ r : String, protectedCall (Outcome.panicked (some r)) callers g =
      { panicking := none, log := g.log ++ [⟨crashFormat, [r, r, callers]⟩] }) ∧
    protectedCall Outcome.returned callers g = { panicking := none, log := g.log } := by
  constructor
  · intro r
    simp [protectedCall, goPanic, handleCrash, recover, LoggerPrintFunc]
  · obtain ⟨p, l⟩ := g
    simp only at hg
    subst hg
    simp [protectedCall, handleCrash, recover]

theorem handleCrash_logs_once_witness :
    (⟨none, []⟩ : Goroutine).panicking = none ∧
    ((∀ r : String, protectedCall (Outcome.panicked (some r)) "stack" ⟨none, []⟩ =
      { panicking := none,
        log := (⟨none, []⟩ : Goroutine).log ++ [⟨crashFormat, [r, r, "stack"]⟩] }) ∧
    protectedCall Outcome.returned "stack" ⟨none, []⟩ =
      { panicking := none, log := (⟨none, []⟩ : Goroutine).log }) :=
  ⟨rfl, handleCrash_logs_once "stack" ⟨none, []⟩ rfl⟩

/-- C10: with `0 < initialPeriod ≤ maxPeriod` and `2*maxPeriod` an `int64`, there
is a number `K` of doublings, the largest that stays within `maxPeriod`, such
that the `i`-th timer of any run of `until` has period
`initialPeriod * 2^(i mod (K+1))`, between `initialPeriod` and `maxPeriod`; the
timer after one of the largest period `initialPeriod * 2^K` has period
`initialPeriod` again. -/
theorem until_period_cycle (e : Env) (h0 : 0 < e.initialPeriod)
    (h1 : e.initialPeriod ≤ e.maxPeriod) (h2 : 2 * e.maxPeriod ≤ 9223372036854775807) :
    ∃ K : Nat, e.initialPeriod * 2 ^ K ≤ e.maxPeriod ∧
      e.maxPeriod < e.initialPeriod * 2 ^ (K + 1) ∧
      ∀ fuel i, i < («until» e fuel).waits.length →
        («until» e fuel).waits[i]? = some (e.initialPeriod * 2 ^ (i % (K + 1))) ∧
        e.initialPeriod ≤ e.initialPeriod * 2 ^ (i % (K + 1)) ∧
        e.initialPeriod * 2 ^ (i % (K + 1)) ≤ e.maxPeriod ∧
        (i % (K + 1) = K → i + 1 < («until» e fuel).waits.length →
          («until» e fuel).waits[i + 1]? = some e.initialPeriod) := by
  obtain ⟨K, hK1, hK2⟩ := exists_maxDoublings e.initialPeriod e.maxPeriod h0 h1
  refine ⟨K, hK1, hK2, ?_⟩
  intro fuel i hi
  have hw := (until_timersFollow e fuel).1
  have hclosed := periodAt_closed e.initialPeriod e.maxPeriod K h0 h2 hK1 hK2
  have hget := getElem?_of_eq_map_range _ _ hw i hi
  rw [hclosed] at hget
  have hr : i % (K + 1) ≤ K := by
    have := Nat.mod_lt i (show 0 < K + 1 by omega)
    omega
  have hpow1 : (1 : Int) ≤ 2 ^ (i % (K + 1)) := one_le_pow₀ (by norm_num)
  have hpow2 : (2 : Int) ^ (i % (K + 1)) ≤ 2 ^ K := pow_le_pow_right₀ (by norm_num) hr
  refine ⟨hget, ?_, ?_, ?_⟩
  · exact le_mul_of_one_le_right h0.le hpow1
  · exact (mul_le_mul_of_nonneg_left hpow2 h0.le).trans hK1
  · intro hK hi2
    have hget2 := getElem?_of_eq_map_range _ _ hw (i + 1) hi2
    rw [hclosed] at hget2
    have hmod : (i + 1) % (K + 1) = 0 := by
      rw [Nat.add_mod, hK]
      by_cases hK0 : K = 0
      · subst hK0; simp
      · have : 1 % (K + 1) = 1 := Nat.mod_eq_of_lt (by omega)
        rw [this]
        exact Nat.mod_self _
    rw [hmod] at hget2
    simpa using hget2

theorem until_period_cycle_witness :
    0 < sampleEnv.initialPeriod ∧ sampleEnv.initialPeriod ≤ sampleEnv.maxPeriod ∧
    2 * sampleEnv.maxPeriod ≤ 9223372036854775807 ∧
    ∃ K : Nat, sampleEnv.initialPeriod * 2 ^ K ≤ sampleEnv.maxPeriod ∧
      sampleEnv.maxPeriod < sampleEnv.initialPeriod * 2 ^ (K + 1) ∧
      ∀ fuel i, i < («until» sampleEnv fuel).waits.length →
        («until» sampleEnv fuel).waits[i]? = some (sampleEnv.initialPeriod * 2 ^ (i % (K + 1))) ∧
        sampleEnv.initialPeriod ≤ sampleEnv.initialPeriod * 2 ^ (i % (K + 1)) ∧
        sampleEnv.initialPeriod * 2 ^ (i % (K + 1)) ≤ sampleEnv.maxPeriod ∧
        (i % (K + 1) = K → i + 1 < («until» sampleEnv fuel).waits.length →
          («until» sampleEnv fuel).waits[i + 1]? = some sampleEnv.initialPeriod) :=
  ⟨by decide, by decide, by decide,
    until_period_cycle sampleEnv (by decide) (by decide) (by decide)⟩

/-! ## Target parser: lemmas -/

/-- The modelled parser passes every row of the two tables of builder_test.go. -/
theorem parseResolverTarget_passes_tests :
    (∀ r ∈ resolverTargetRows, parsed r.1 = r.2) ∧ (∀ r ∈ targetRows, parsed r.1 = r.2) := by
  constructor <;> decide

theorem splitLast_of_not_mem (c : Char) (s : List Char) (h : c ∉ s) :
    splitLast c s = none := by
  induction s with
  | nil => rfl
  | cons x xs ih =>
    have hx : x ≠ c := fun e => h (by simp [e])
    have hxs : c ∉ xs := fun m => h (List.mem_cons_of_mem _ m)
    simp [splitLast, ih hxs, hx]

theorem not_mem_of_splitLast_none (c : Char) (s : List Char) (h : splitLast c s = none) :
    c ∉ s := by
  induction s with
  | nil => simp
  | cons x xs ih =>
    unfold splitLast at h
    cases hs : splitLast c xs with
    | some ab => rw [hs] at h; simp at h
    | none =>
      rw [hs] at h
      have hx : x ≠ c := by
        intro e
        simp [e] at h
      simp only [List.mem_cons, not_or]
      exact ⟨fun e => hx e.symm, ih hs⟩

theorem splitLast_append (c : Char) (a p : List Char) (h : c ∉ p) :
    splitLast c (a ++ c :: p) = some (a, p) := by
  induction a with
  | nil => simp [splitLast, splitLast_of_not_mem c p h]
  | cons x xs ih => simp [splitLast, ih]

theorem splitLast_some (c : Char) (s a b : List Char) (h : splitLast c s = some (a, b)) :
    s = a ++ c :: b ∧ c ∉ b := by
  induction s generalizing a with
  | nil => simp [splitLast] at h
  | cons x xs ih =>
    unfold splitLast at h
    cases hs : splitLast c xs with
    | some ab =>
      obtain ⟨a2, b2⟩ := ab
      rw [hs] at h
      simp only [Option.some.injEq, Prod.mk.injEq] at h
      obtain ⟨rfl, rfl⟩ := h
      obtain ⟨h1, h2⟩ := ih a2 hs
      exact ⟨by rw [h1]; rfl, h2⟩
    | none =>
      rw [hs] at h
      by_cases hx : x = c
      · simp only [hx, if_true, Option.some.injEq, Prod.mk.injEq] at h
        obtain ⟨rfl, rfl⟩ := h
        exact ⟨by rw [hx]; rfl, not_mem_of_splitLast_none c xs hs⟩
      · simp [hx] at h

theorem splitFirst_fst_not_mem (c : Char) (s : List Char) : c ∉ (splitFirst c s).1 := by
  induction s with
  | nil => simp [splitFirst]
  | cons x xs ih =>
    by_cases hx : x = c
    · simp [splitFirst, hx]
    · simp only [splitFirst, hx, if_false, List.mem_cons, not_or]
      exact ⟨fun e => hx e.symm, ih⟩

theorem splitFirst_of_not_mem (c : Char) (s : List Char) (h : c ∉ s) :
    splitFirst c s = (s, []) := by
  induction s with
  | nil => rfl
  | cons x xs ih =>
    have hx : x ≠ c := fun e => h (by simp [e])
    have hxs : c ∉ xs := fun m => h (List.mem_cons_of_mem _ m)
    simp [splitFirst, hx, ih hxs]

theorem splitFirst_append (c : Char) (a b : List Char) (h : c ∉ a) :
    splitFirst c (a ++ c :: b) = (a, b) := by
  induction a with
  | nil => simp [splitFirst]
  | cons x xs ih =>
    have hx : x ≠ c := fun e => h (by simp [e])
    have hxs : c ∉ xs := fun m => h (List.mem_cons_of_mem _ m)
    simp [splitFirst, hx, ih hxs]

theorem stripSuffix_append (suf a : List Char) : stripSuffix suf (a ++ suf) = a := by
  unfold stripSuffix
  have h : suf.isSuffixOf (a ++ suf) = true := by
    rw [List.isSuffixOf_iff_suffix]
    exact List.suffix_append a suf
  rw [if_pos h]
  simp

theorem stripSuffix_of_few_dots (s : List Char) (h : s.count '.' < 3) :
    stripSuffix clusterSuffix s = s := by
  unfold stripSuffix
  have hn : ¬ (clusterSuffix.isSuffixOf s = true) := by
    rw [List.isSuffixOf_iff_suffix]
    rintro ⟨t, rfl⟩
    rw [List.count_append] at h
    have h3 : clusterSuffix.count '.' = 3 := by decide
    omega
  rw [if_neg hn]

theorem splitServicePortNamespace_port (name p : List Char) (hp : ':' ∉ p) :
    splitServicePortNamespace (name ++ ':' :: p) =
      ((splitFirst '.' (stripSuffix clusterSuffix name)).1,
        (splitFirst '.' (stripSuffix clusterSuffix name)).2, p) := by
  simp [splitServicePortNamespace, splitLast_append ':' name p hp]

theorem splitServicePortNamespace_no_port (name : List Char) (hn : ':' ∉ name) :
    splitServicePortNamespace name =
      ((splitFirst '.' (stripSuffix clusterSuffix name)).1,
        (splitFirst '.' (stripSuffix clusterSuffix name)).2, []) := by
  simp [splitServicePortNamespace, splitLast_of_not_mem ':' name hn]

/-- The name and the port of a component whose port suffix holds no further colon. -/
theorem splitServicePortNamespace_suffix (name : List Char) (sfx : Option (List Char))
    (hn : ':' ∉ name) (hp : ∀ p, sfx = some p → ':' ∉ p) :
    splitServicePortNamespace (name ++ portSuffix sfx) =
      ((splitFirst '.' (stripSuffix clusterSuffix name)).1,
        (splitFirst '.' (stripSuffix clusterSuffix name)).2, sfx.getD []) := by
  cases sfx with
  | none => simpa [portSuffix] using splitServicePortNamespace_no_port name hn
  | some p => simpa [portSuffix] using splitServicePortNamespace_port name p (hp p rfl)

theorem splitServicePortNamespace_fst_no_dot (x : List Char) :
    '.' ∉ (splitServicePortNamespace x).1 := by
  unfold splitServicePortNamespace
  exact splitFirst_fst_not_mem _ _

theorem splitServicePortNamespace_port_no_colon (x : List Char) :
    ':' ∉ (splitServicePortNamespace x).2.2 := by
  unfold splitServicePortNamespace
  cases h : splitLast ':' x with
  | none => simp
  | some ab =>
    obtain ⟨a, b⟩ := ab
    exact (splitLast_some ':' x a b h).2

theorem extractNames_fst_no_dot (t : Target) : '.' ∉ (extractNames t).1 := by
  unfold extractNames
  split
  · exact splitServicePortNamespace_fst_no_dot _
  · split
    · exact splitServicePortNamespace_fst_no_dot _
    · exact splitServicePortNamespace_fst_no_dot _

theorem extractNames_port_no_colon (t : Target) : ':' ∉ (extractNames t).2.2 := by
  unfold extractNames
  split
  · exact splitServicePortNamespace_port_no_colon _
  · split
    · exact splitServicePortNamespace_port_no_colon _
    · exact splitServicePortNamespace_port_no_colon _

/-- A successful parse is the descriptor of the extracted names, and the service is not empty. -/
theorem parseResolverTarget_ok (t : Target) (d : targetInfo)
    (h : parseResolverTarget t = Except.ok d) :
    (extractNames t).1 ≠ [] ∧
      d = describe t.scheme (extractNames t).1 (extractNames t).2.1 (extractNames t).2.2 := by
  unfold parseResolverTarget at h
  split at h
  · cases h
  · by_cases hsvc : (extractNames t).1 = []
    · simp [hsvc] at h
    · simp only [hsvc, if_false, Except.ok.injEq] at h
      exact ⟨hsvc, h.symm⟩

theorem parseResolverTarget_of_extract (t : Target) (h : (extractNames t).1 ≠ []) :
    parseResolverTarget t =
      Except.ok (describe t.scheme (extractNames t).1 (extractNames t).2.1 (extractNames t).2.2) := by
  unfold parseResolverTarget
  have h0 : ¬ (t.authority = [] ∧ pathComponent t = []) := by
    rintro ⟨ha, hp⟩
    apply h
    simp [extractNames, ha, hp, splitServicePortNamespace, splitLast, stripSuffix, splitFirst,
      clusterSuffix, List.isSuffixOf]
  rw [if_neg h0]
  simp only [h, if_false]

theorem atoiAux_isSome (s : List Char) (acc : Nat) :
    (atoiAux acc s).isSome = true ↔ ∀ c ∈ s, c.isDigit = true := by
  induction s generalizing acc with
  | nil => simp [atoiAux]
  | cons x xs ih =>
    by_cases hx : x.isDigit = true
    · simp [atoiAux, hx, ih]
    · simp [atoiAux, hx]

theorem atoi_isSome (s : List Char) :
    (atoi s).isSome = true ↔ s ≠ [] ∧ ∀ c ∈ s, c.isDigit = true := by
  cases s with
  | nil => simp [atoi]
  | cons x xs =>
    simp only [atoi, ne_eq, reduceCtorEq, not_false_eq_true, true_and]
    exact atoiAux_isSome (x :: xs) 0

theorem name_without_dot (name : List Char) (h : '.' ∉ name) :
    splitFirst '.' (stripSuffix clusterSuffix name) = (name, []) := by
  rw [stripSuffix_of_few_dots name (by rw [List.count_eq_zero_of_not_mem h]; omega)]
  exact splitFirst_of_not_mem '.' name h

theorem name_with_namespace (svc ns : List Char) (hs : '.' ∉ svc) (hn : '.' ∉ ns) :
    splitFirst '.' (stripSuffix clusterSuffix (svc ++ '.' :: ns)) = (svc, ns) := by
  rw [stripSuffix_of_few_dots _ (by
    rw [List.count_append, List.count_cons_self, List.count_eq_zero_of_not_mem hs,
      List.count_eq_zero_of_not_mem hn]
    omega)]
  exact splitFirst_append '.' svc ns hs

theorem name_qualified (svc ns : List Char) (hs : '.' ∉ svc) :
    splitFirst '.' (stripSuffix clusterSuffix ((svc ++ '.' :: ns) ++ clusterSuffix)) =
      (svc, ns) := by
  rw [stripSuffix_append]
  exact splitFirst_append '.' svc ns hs

theorem parse_of_extractNames (t : Target) (svc ns port : List Char) (hsvc : svc ≠ [])
    (h : extractNames t = (svc, ns, port)) :
    parseResolverTarget t = Except.ok (describe t.scheme svc ns port) := by
  rw [parseResolverTarget_of_extract t (by rw [h]; exact hsvc), h]

theorem parse_namespace_component (scheme ns comp svc ns2 port : List Char) (hns : ns ≠ [])
    (hsvc : svc ≠ []) (hne : comp ≠ [])
    (h : splitServicePortNamespace comp = (svc, ns2, port)) :
    parseResolverTarget ⟨scheme, ns, '/' :: comp⟩ = Except.ok (describe scheme svc ns port) := by
  apply parse_of_extractNames _ svc ns port hsvc
  simp [extractNames, pathComponent, hns, hne, h]

theorem parse_slash_component (scheme comp svc ns port : List Char) (hsvc : svc ≠ [])
    (h : splitServicePortNamespace comp = (svc, ns, port)) :
    parseResolverTarget ⟨scheme, [], '/' :: comp⟩ = Except.ok (describe scheme svc ns port) := by
  apply parse_of_extractNames _ svc ns port hsvc
  simp [extractNames, pathComponent, h]

theorem parse_placements (scheme comp svc ns port : List Char) (hsvc : svc ≠ [])
    (hne : comp ≠ []) (hhead : ∀ r, comp ≠ '/' :: r)
    (h : splitServicePortNamespace comp = (svc, ns, port)) :
    ∀ t ∈ placements scheme comp,
      parseResolverTarget t = Except.ok (describe scheme svc ns port) := by
  intro t ht
  simp only [placements, List.mem_cons, List.mem_singleton, List.not_mem_nil, or_false] at ht
  rcases ht with rfl | rfl | rfl | rfl
  · exact parse_slash_component scheme comp svc ns port hsvc h
  · apply parse_of_extractNames _ svc ns port hsvc
    cases comp with
    | nil => exact absurd rfl hne
    | cons x xs =>
      have hx : x ≠ '/' := fun e => hhead xs (by rw [e])
      simp [extractNames, pathComponent, hx, h]
  · apply parse_of_extractNames _ svc ns port hsvc
    simp [extractNames, pathComponent, hne, h]
  · apply parse_of_extractNames _ svc ns port hsvc
    simp [extractNames, pathComponent, hne, h]

theorem head_of_append (svc rest : List Char) (hsvc : svc ≠ []) (hslash : '/' ∉ svc) :
    svc ++ rest ≠ [] ∧ ∀ r, svc ++ rest ≠ '/' :: r := by
  cases svc with
  | nil => exact absurd rfl hsvc
  | cons x xs =>
    have hx : x ≠ '/' := fun e => hslash (by simp [e])
    refine ⟨by simp, fun r hr => ?_⟩
    simp only [List.cons_append, List.cons.injEq] at hr
    exact hx hr.1

theorem parse_render_describe (scheme svc ns port : List Char) (hsvc : svc ≠ [])
    (hdot : '.' ∉ svc) (hcol : ':' ∉ port) :
    parseResolverTarget (render (describe scheme svc ns port)) =
      Except.ok (describe scheme svc ns port) := by
  have hsplit := splitServicePortNamespace_port svc port hcol
  rw [name_without_dot _ hdot] at hsplit
  by_cases hns : ns = []
  · subst hns
    exact parse_slash_component scheme _ svc [] port hsvc hsplit
  · exact parse_namespace_component scheme ns _ svc [] port hns hsvc (by simp) hsplit

theorem parse_renderShort_describe (scheme svc ns : List Char) (hsvc : svc ≠ [])
    (hdot : '.' ∉ svc) (hcol : ':' ∉ svc) :
    parseResolverTarget (renderShort (describe scheme svc ns [])) =
      Except.ok (describe scheme svc ns []) := by
  have hsplit := splitServicePortNamespace_no_port svc hcol
  rw [name_without_dot _ hdot] at hsplit
  have hr : renderShort (describe scheme svc ns []) = ⟨scheme, ns, '/' :: svc⟩ := by
    simp [renderShort, describe]
  rw [hr]
  by_cases hns : ns = []
  · subst hns
    exact parse_slash_component scheme _ svc [] [] hsvc hsplit
  · exact parse_namespace_component scheme ns _ svc [] [] hns hsvc hsvc hsplit

/-- The rendering without the colon of an empty port parses back as well, unless
the port is empty and the service name holds a colon. -/
theorem parse_renderShort (t : Target) (d : targetInfo)
    (h : parseResolverTarget t = Except.ok d) (hc : d.port ≠ [] ∨ ':' ∉ d.serviceName) :
    parseResolverTarget (renderShort d) = Except.ok d := by
  by_cases hp : d.port = []
  · have hcol : ':' ∉ d.serviceName := hc.resolve_left (fun h => h hp)
    obtain ⟨hsvc, hd⟩ := parseResolverTarget_ok t d h
    rw [hd] at hp hcol ⊢
    simp only [describe] at hp hcol
    rw [hp]
    exact parse_renderShort_describe _ _ _ hsvc (extractNames_fst_no_dot t) hcol
  · have hr : renderShort d = render d := by simp [renderShort, render, hp]
    obtain ⟨hsvc, hd⟩ := parseResolverTarget_ok t d h
    rw [hr, hd]
    exact parse_render_describe _ _ _ _ hsvc (extractNames_fst_no_dot t)
      (extractNames_port_no_colon t)

/-! ## Claims on the target parser -/

/-- C6: for every target that parses, an empty port gives `useFirstPort` and
not `resolveByPort`; a port that is not empty and made of decimal digits only
gives neither flag; a port that is not empty and is not made of decimal digits
only gives `resolveByPort` and not `useFirstPort`; the two flags never hold
together, so exactly one of the three modes holds. -/
theorem port_mode_of_port (t : Target) (d : targetInfo)
    (h : parseResolverTarget t = Except.ok d) :
    (d.port = [] → d.useFirstPort = true ∧ d.resolveByPort = false) ∧
    (d.port ≠ [] → (∀ c ∈ d.port, c.isDigit = true) →
      d.resolveByPort = false ∧ d.useFirstPort = false) ∧
    (d.port ≠ [] → ¬ (∀ c ∈ d.port, c.isDigit = true) →
      d.resolveByPort = true ∧ d.useFirstPort = false) ∧
    ¬ (d.useFirstPort = true ∧ d.resolveByPort = true) := by
  obtain ⟨_, hd⟩ := parseResolverTarget_ok t d h
  subst hd
  simp only [describe]
  generalize (extractNames t).2.2 = port
  have hiff := atoi_isSome port
  refine ⟨?_, ?_, ?_, ?_⟩
  · intro hp
    simp [hp]
  · intro hp hdig
    have : (atoi port).isSome = true := hiff.mpr ⟨hp, hdig⟩
    cases ha : atoi port with
    | none => simp [ha] at this
    | some n => simp [hp]
  · intro hp hdig
    have : ¬ ((atoi port).isSome = true) := fun hs => hdig (hiff.mp hs).2
    cases ha : atoi port with
    | none => simp [hp]
    | some n => simp [ha] at this
  · rintro ⟨h1, h2⟩
    simp [h1] at h2

theorem port_mode_of_port_witness :
    parseResolverTarget (mkTarget "kubernetes" "" "/a.b:80") =
      Except.ok (mkInfo "kubernetes" "a" "b" "80" false false) ∧
    (((mkInfo "kubernetes" "a" "b" "80" false false).port = [] →
      (mkInfo "kubernetes" "a" "b" "80" false false).useFirstPort = true ∧
      (mkInfo "kubernetes" "a" "b" "80" false false).resolveByPort = false) ∧
    ((mkInfo "kubernetes" "a" "b" "80" false false).port ≠ [] →
      (∀ c ∈ (mkInfo "kubernetes" "a" "b" "80" false false).port, c.isDigit = true) →
      (mkInfo "kubernetes" "a" "b" "80" false false).resolveByPort = false ∧
      (mkInfo "kubernetes" "a" "b" "80" false false).useFirstPort = false) ∧
    ((mkInfo "kubernetes" "a" "b" "80" false false).port ≠ [] →
      ¬ (∀ c ∈ (mkInfo "kubernetes" "a" "b" "80" false false).port, c.isDigit = true) →
      (mkInfo "kubernetes" "a" "b" "80" false false).resolveByPort = true ∧
      (mkInfo "kubernetes" "a" "b" "80" false false).useFirstPort = false) ∧
    ¬ ((mkInfo "kubernetes" "a" "b" "80" false false).useFirstPort = true ∧
      (mkInfo "kubernetes" "a" "b" "80" false false).resolveByPort = true)) :=
  ⟨rfl, port_mode_of_port (mkTarget "kubernetes" "" "/a.b:80")
    (mkInfo "kubernetes" "a" "b" "80" false false) rfl⟩

/-- C7: for service `svc` and namespace `ns`, not empty and without `.`, `/` or
`:`, and an optional port suffix `:port` (the port being what follows the
trailing colon of the target, so it holds no colon itself), the forms `ns/svc`
(authority `ns`, path `svc`), `svc.ns` and `svc.ns.svc.cluster.local`, the last
two wherever the component stands, all parse, to the same descriptor: service
`svc`, namespace `ns`, the port of the suffix and its flags. -/
theorem parse_forms_agree (scheme svc ns : List Char) (sfx : Option (List Char))
    (hsvc : svc ≠ []) (hns : ns ≠ [])
    (hsvcChars : ∀ c ∈ svc, c ≠ '.' ∧ c ≠ '/' ∧ c ≠ ':')
    (hnsChars : ∀ c ∈ ns, c ≠ '.' ∧ c ≠ '/' ∧ c ≠ ':')
    (hport : ∀ p, sfx = some p → ':' ∉ p) :
    parseResolverTarget ⟨scheme, ns, '/' :: (svc ++ portSuffix sfx)⟩ =
      Except.ok (describe scheme svc ns (sfx.getD [])) ∧
    (∀ t ∈ placements scheme ((svc ++ '.' :: ns) ++ portSuffix sfx),
      parseResolverTarget t = Except.ok (describe scheme svc ns (sfx.getD []))) ∧
    (∀ t ∈ placements scheme (((svc ++ '.' :: ns) ++ clusterSuffix) ++ portSuffix sfx),
      parseResolverTarget t = Except.ok (describe scheme svc ns (sfx.getD []))) ∧
    (describe scheme svc ns (sfx.getD [])).serviceName = svc ∧
    (describe scheme svc ns (sfx.getD [])).namespace_ = ns ∧
    (describe scheme svc ns (sfx.getD [])).port = sfx.getD [] := by
  have hs1 : '.' ∉ svc := fun m => (hsvcChars _ m).1 rfl
  have hs2 : '/' ∉ svc := fun m => (hsvcChars _ m).2.1 rfl
  have hs3 : ':' ∉ svc := fun m => (hsvcChars _ m).2.2 rfl
  have hn1 : '.' ∉ ns := fun m => (hnsChars _ m).1 rfl
  have hn3 : ':' ∉ ns := fun m => (hnsChars _ m).2.2 rfl
  have hc2 : ':' ∉ svc ++ '.' :: ns := by
    simp only [List.mem_append, List.mem_cons, not_or]
    exact ⟨hs3, by decide, hn3⟩
  have hc3 : ':' ∉ (svc ++ '.' :: ns) ++ clusterSuffix := by
    rw [List.mem_append, not_or]
    exact ⟨hc2, by decide⟩
  have e1 := splitServicePortNamespace_suffix svc sfx hs3 hport
  rw [name_without_dot svc hs1] at e1
  have e2 := splitServicePortNamespace_suffix _ sfx hc2 hport
  rw [name_with_namespace svc ns hs1 hn1] at e2
  have e3 := splitServicePortNamespace_suffix _ sfx hc3 hport
  rw [name_qualified svc ns hs1] at e3
  refine ⟨?_, ?_, ?_, rfl, rfl, rfl⟩
  · exact parse_namespace_component scheme ns _ svc [] _ hns hsvc
      (head_of_append svc _ hsvc hs2).1 e1
  · have hh := head_of_append svc ('.' :: ns ++ portSuffix sfx) hsvc hs2
    have hassoc : svc ++ ('.' :: ns ++ portSuffix sfx) = (svc ++ '.' :: ns) ++ portSuffix sfx := by
      simp
    rw [hassoc] at hh
    exact parse_placements scheme _ svc ns _ hsvc hh.1 hh.2 e2
  · have hh := head_of_append svc ('.' :: ns ++ clusterSuffix ++ portSuffix sfx) hsvc hs2
    have hassoc : svc ++ ('.' :: ns ++ clusterSuffix ++ portSuffix sfx) =
        ((svc ++ '.' :: ns) ++ clusterSuffix) ++ portSuffix sfx := by
      simp
    rw [hassoc] at hh
    exact parse_placements scheme _ svc ns _ hsvc hh.1 hh.2 e3

theorem parse_forms_agree_witness :
    "a".data ≠ [] ∧ "b".data ≠ [] ∧
    (∀ c ∈ "a".data, c ≠ '.' ∧ c ≠ '/' ∧ c ≠ ':') ∧
    (∀ c ∈ "b".data, c ≠ '.' ∧ c ≠ '/' ∧ c ≠ ':') ∧
    (parseResolverTarget ⟨"kubernetes".data, "b".data,
        '/' :: ("a".data ++ portSuffix (some "80".data))⟩ =
      Except.ok (describe "kubernetes".data "a".data "b".data ((some "80".data).getD [])) ∧
    (∀ t ∈ placements "kubernetes".data (("a".data ++ '.' :: "b".data) ++
        portSuffix (some "80".data)),
      parseResolverTarget t =
        Except.ok (describe "kubernetes".data "a".data "b".data ((some "80".data).getD []))) ∧
    (∀ t ∈ placements "kubernetes".data ((("a".data ++ '.' :: "b".data) ++ clusterSuffix) ++
        portSuffix (some "80".data)),
      parseResolverTarget t =
        Except.ok (describe "kubernetes".data "a".data "b".data ((some "80".data).getD []))) ∧
    (describe "kubernetes".data "a".data "b".data ((some "80".data).getD [])).serviceName =
      "a".data ∧
    (describe "kubernetes".data "a".data "b".data ((some "80".data).getD [])).namespace_ =
      "b".data ∧
    (describe "kubernetes".data "a".data "b".data ((some "80".data).getD [])).port =
      (some "80".data).getD []) :=
  ⟨by decide, by decide, by decide, by decide,
    parse_forms_agree "kubernetes".data "a".data "b".data (some "80".data)
      (by decide) (by decide) (by decide) (by decide)
      (by intro p hp; cases hp; decide)⟩

/-- C8: the parser fails exactly when the service name extracted from the
target is empty; a successful parse has a service name that is not empty; and
the targets `""`, `/` and `kubernetes:///` are rejected. -/
theorem parse_error_iff_no_service :
    (∀ t, (∃ err, parseResolverTarget t = Except.error err) ↔ (extractNames t).1 = []) ∧
    (∀ t d, parseResolverTarget t = Except.ok d → d.serviceName ≠ []) ∧
    (∃ err, parseResolverTarget (mkTarget "" "" "") = Except.error err) ∧
    (∃ err, parseResolverTarget (mkTarget "" "" "/") = Except.error err) ∧
    (∃ err, parseResolverTarget (mkTarget "kubernetes" "" "/") = Except.error err) := by
  refine ⟨?_, ?_, ⟨_, rfl⟩, ⟨_, rfl⟩, ⟨_, rfl⟩⟩
  · intro t
    constructor
    · rintro ⟨err, herr⟩
      by_contra hne
      rw [parseResolverTarget_of_extract t hne] at herr
      cases herr
    · intro hempty
      unfold parseResolverTarget
      by_cases h0 : t.authority = [] ∧ pathComponent t = []
      · exact ⟨_, by rw [if_pos h0]⟩
      · exact ⟨ParseError.noService, by rw [if_neg h0]; simp [hempty]⟩
  · intro t d h
    obtain ⟨hsvc, hd⟩ := parseResolverTarget_ok t d h
    rw [hd]
    exact hsvc

theorem parse_error_iff_no_service_witness :
    parseResolverTarget (mkTarget "kubernetes" "x" "/a:port") =
      Except.ok (mkInfo "kubernetes" "a" "x" "port" true false) ∧
    (mkInfo "kubernetes" "a" "x" "port" true false).serviceName ≠ [] :=
  ⟨rfl, parse_error_iff_no_service.2.1 (mkTarget "kubernetes" "x" "/a:port")
    (mkInfo "kubernetes" "a" "x" "port" true false) rfl⟩

/-- C9: for every descriptor that the parser returns, parsing its rendering
`namespace/service:port` under the same scheme succeeds and returns the same
descriptor, scheme, service, namespace, port and both flags. -/
theorem parse_render_roundtrip (t : Target) (d : targetInfo)
    (h : parseResolverTarget t = Except.ok d) :
    parseResolverTarget (render d) = Except.ok d := by
  obtain ⟨hsvc, hd⟩ := parseResolverTarget_ok t d h
  rw [hd]
  exact parse_render_describe _ _ _ _ hsvc (extractNames_fst_no_dot t)
    (extractNames_port_no_colon t)

theorem parse_render_roundtrip_witness :
    parseResolverTarget (mkTarget "kubernetes" "" "/a.b.svc.cluster.local:80") =
      Except.ok (mkInfo "kubernetes" "a" "b" "80" false false) ∧
    render (mkInfo "kubernetes" "a" "b" "80" false false) = mkTarget "kubernetes" "b" "/a:80" ∧
    parseResolverTarget (render (mkInfo "kubernetes" "a" "b" "80" false false)) =
      Except.ok (mkInfo "kubernetes" "a" "b" "80" false false) :=
  ⟨rfl, rfl, parse_render_roundtrip (mkTarget "kubernetes" "" "/a.b.svc.cluster.local:80")
    (mkInfo "kubernetes" "a" "b" "80" false false) rfl⟩

end Kuberesolver
